import Mathlib

/-!
Verification of `cleanup.py` (Amazon ECS task definition cleanup) against its
natural-language specification.  Python strings are embedded as `List Char`,
Python lists as Lean lists, in-place list mutation as explicit state passing,
and the remote AWS API as explicit function parameters returning tagged
results.  Definition names follow the source where Lean permits.
-/

set_option autoImplicit false

namespace Cleanup

/-- A task definition / task ARN: a Python string, embedded as a char list. -/
abbrev Arn : Type := List Char

/-! ### Python string primitives used by `canonical_task_definition_arn` -/

/-- Index of the last occurrence of `c` in `s` (`none` when `c` is absent):
the Nat-valued core of Python's `str.rfind`. -/
def rfindIdx? (c : Char) : List Char → Option Nat
  | [] => none
  | x :: xs =>
    match rfindIdx? c xs with
    | some i => some (i + 1)
    | none => if x = c then some 0 else none

/-- Python `s.rfind(c)`: index of the last occurrence of `c`, or `-1`. -/
def str_rfind (c : Char) (s : List Char) : Int :=
  match rfindIdx? c s with
  | none => -1
  | some i => (i : Int)

/-- Python slice `s[0:e]` for an `int` end bound `e`: a negative bound counts
from the end of the string (clamped at 0), a non-negative bound takes the
first `e` characters (clamped at the length). -/
def py_slice_to (s : List Char) (e : Int) : List Char :=
  if e < 0 then s.take ((s.length : Int) + e).toNat else s.take e.toNat

/-- `canonical_task_definition_arn` (cleanup.py lines 65-67):
`end_cut = task_definition_arn.rfind(":")` followed by
`return task_definition_arn[0:end_cut]`. -/
def canonical_task_definition_arn (task_definition_arn : Arn) : Arn :=
  py_slice_to task_definition_arn (str_rfind ':' task_definition_arn)

/-! ### Batch throttle executor (cleanup.py lines 121-137) -/

/-- Outcome of one call to an AWS API handler, as classified by
`process_aws_api_batch_throttle`: success, a `botocore.exceptions.ClientError`
carrying an error code, or any other exception (which the executor's
`except` clause does not catch). -/
inductive ApiResult where
  | ok
  | clientError (code : String)
  | exn
deriving Repr, DecidableEq

/-- Observable event of an executor run: a handler invocation with the batch
passed to it and its outcome, or a `time.sleep(2)` backoff pause. -/
inductive Event where
  | call (batch : List Arn) (result : ApiResult)
  | sleep
deriving Repr, DecidableEq

/-- Result of running the executor under a fuel bound: normal return,
propagation of an uncaught exception, or fuel exhaustion while the loop is
still running.  Each carries the final state of `process_list` (the Python
list mutated in place) and the trace of events so far. -/
inductive ExecResult where
  | done (process_list : List Arn) (trace : List Event)
  | fatal (process_list : List Arn) (trace : List Event)
  | fuelOut (process_list : List Arn) (trace : List Event)
deriving Repr, DecidableEq

/-- Prefix further events onto the trace of an executor result. -/
def ExecResult.prependTrace (events : List Event) : ExecResult → ExecResult
  | .done l tr => .done l (events ++ tr)
  | .fatal l tr => .fatal l (events ++ tr)
  | .fuelOut l tr => .fuelOut l (events ++ tr)

/-- `process_aws_api_batch_throttle` (cleanup.py lines 121-137).  The Python
loop `while process_list:` calls `api_handler(process_list[:batch_size])` and
on success deletes the batch (`del process_list[:batch_size]`); on a
`ClientError` whose code is `"ThrottlingException"` it sleeps and loops with
the list unchanged; on any other `ClientError` the exception is swallowed and
the loop retries the same batch immediately; any other exception propagates.
The handler is indexed by a call counter so a stateful closure can answer
differently on successive calls, and `fuel` bounds the number of loop
iterations so the (possibly non-terminating) loop is total in Lean. -/
def process_aws_api_batch_throttle (fuel : Nat)
    (api_handler : Nat → List Arn → ApiResult) (call_index : Nat)
    (process_list : List Arn) (batch_size : Nat) : ExecResult :=
  match fuel with
  | 0 => .fuelOut process_list []
  | fuel + 1 =>
    if process_list = [] then
      .done process_list []
    else
      match api_handler call_index (process_list.take batch_size) with
      | .ok =>
        ExecResult.prependTrace
          [.call (process_list.take batch_size) .ok]
          (process_aws_api_batch_throttle fuel api_handler (call_index + 1)
            (process_list.drop batch_size) batch_size)
      | .clientError code =>
        if code = "ThrottlingException" then
          ExecResult.prependTrace
            [.call (process_list.take batch_size) (.clientError code), .sleep]
            (process_aws_api_batch_throttle fuel api_handler (call_index + 1)
              process_list batch_size)
        else
          ExecResult.prependTrace
            [.call (process_list.take batch_size) (.clientError code)]
            (process_aws_api_batch_throttle fuel api_handler (call_index + 1)
              process_list batch_size)
      | .exn => .fatal process_list [.call (process_list.take batch_size) .exn]

/-- The batches of the successful handler invocations of a trace, in order. -/
def successfulBatches : List Event → List (List Arn)
  | [] => []
  | .call batch .ok :: rest => batch :: successfulBatches rest
  | .call _ (.clientError _) :: rest => successfulBatches rest
  | .call _ .exn :: rest => successfulBatches rest
  | .sleep :: rest => successfulBatches rest

/-- Checks that every throttled handler invocation of a trace is followed
immediately by a sleep and then by a re-invocation with the identical batch. -/
def throttleRetrySameBatch : List Event → Bool
  | [] => true
  | .call batch (.clientError code) :: rest =>
    if code = "ThrottlingException" then
      match rest with
      | .sleep :: .call batch2 _ :: _ =>
        if batch2 = batch then throttleRetrySameBatch rest else false
      | _ => false
    else throttleRetrySameBatch rest
  | .call _ .ok :: rest => throttleRetrySameBatch rest
  | .call _ .exn :: rest => throttleRetrySameBatch rest
  | .sleep :: rest => throttleRetrySameBatch rest

/-! ### Usage collector (cleanup.py lines 80-94) -/

/-- Constant `ECS_TASK_QUERY_BATCH_SIZE` (cleanup.py line 11). -/
def ECS_TASK_QUERY_BATCH_SIZE : Nat := 100

/-- Constant `ECS_TASK_DEFINITION_DELETE_BATCH_SIZE` (cleanup.py line 12). -/
def ECS_TASK_DEFINITION_DELETE_BATCH_SIZE : Nat := 10

/-- `ecs_cluster_task_definition_arn_list` (cleanup.py lines 80-94).  The
remote `client.describe_tasks` call is the parameter `describe_tasks`, taking
one query batch to the task definition ARNs extracted from its response.  The
Python loop slices `task_arn_list[:100]` and then destructively deletes that
slice from the caller's list (`del task_arn_list[:100]`); the returned triple
records, in order: the query batches issued, the accumulated `arn_list`
result, and the final state of the caller's `task_arn_list` after those
in-place deletions. -/
def ecs_cluster_task_definition_arn_list (describe_tasks : List Arn → List Arn)
    (task_arn_list : List Arn) : List (List Arn) × List Arn × List Arn :=
  if h : task_arn_list = [] then
    ([], [], task_arn_list)
  else
    let query_arn_list := task_arn_list.take ECS_TASK_QUERY_BATCH_SIZE
    let rec_result :=
      ecs_cluster_task_definition_arn_list describe_tasks
        (task_arn_list.drop ECS_TASK_QUERY_BATCH_SIZE)
    (query_arn_list :: rec_result.1,
      describe_tasks query_arn_list ++ rec_result.2.1,
      rec_result.2.2)
termination_by task_arn_list.length
decreasing_by
  have hpos : 0 < task_arn_list.length := List.length_pos.mpr h
  simp only [List.length_drop, ECS_TASK_QUERY_BATCH_SIZE]
  omega

/-! ### Reconciler (cleanup.py lines 178-188) -/

/-- The unused-definition selection loop of `main` (cleanup.py lines
178-188): for each `active_arn` in listing order, skip it when
`set_inactive_mode == "retain-versions"` and its canonical ARN is in
`definition_in_use_canonical_arn_set`; otherwise append it to
`unused_arn_list` when it is not in `definition_in_use_arn_list`. -/
def compute_unused_arn_list (set_inactive_mode : String)
    (definition_in_use_arn_list definition_in_use_canonical_arn_set : List Arn) :
    List Arn → List Arn
  | [] => []
  | active_arn :: rest =>
    if set_inactive_mode = "retain-versions" ∧
        canonical_task_definition_arn active_arn ∈
          definition_in_use_canonical_arn_set then
      compute_unused_arn_list set_inactive_mode definition_in_use_arn_list
        definition_in_use_canonical_arn_set rest
    else if active_arn ∉ definition_in_use_arn_list then
      active_arn :: compute_unused_arn_list set_inactive_mode
        definition_in_use_arn_list definition_in_use_canonical_arn_set rest
    else
      compute_unused_arn_list set_inactive_mode definition_in_use_arn_list
        definition_in_use_canonical_arn_set rest

/-- The retained complement of the same loop: the active ARNs the loop does
not append to `unused_arn_list` (skipped by the retain-versions guard or
found in `definition_in_use_arn_list`), in listing order. -/
def retained_arn_list (set_inactive_mode : String)
    (definition_in_use_arn_list definition_in_use_canonical_arn_set : List Arn) :
    List Arn → List Arn
  | [] => []
  | active_arn :: rest =>
    if (set_inactive_mode = "retain-versions" ∧
        canonical_task_definition_arn active_arn ∈
          definition_in_use_canonical_arn_set) ∨
        active_arn ∈ definition_in_use_arn_list then
      active_arn :: retained_arn_list set_inactive_mode
        definition_in_use_arn_list definition_in_use_canonical_arn_set rest
    else
      retained_arn_list set_inactive_mode definition_in_use_arn_list
        definition_in_use_canonical_arn_set rest

/-! ### Mutation handlers of main (cleanup.py lines 58-62 and 193-224) -/

/-- `dryrun_message` (cleanup.py lines 58-62). -/
def dryrun_message (commit : Bool) : String :=
  if !commit then " (DRYRUN)" else ""

/-- A mutating remote capability invocation: `ecs_task_definition_deregister`
(cleanup.py line 113) or `ecs_task_definition_delete` (cleanup.py line 117). -/
inductive MutationCall where
  | deregister (definition_arn : Arn)
  | delete (definition_arn_list : List Arn)
deriving Repr, DecidableEq

/-- Observable effects of one mutation-handler invocation: the lines printed
(ARN plus dry-run suffix) and the mutating remote calls issued. -/
structure MutationHandlerResult where
  output_lines : List (Arn × String)
  mutation_calls : List MutationCall
deriving Repr, DecidableEq

/-- `_definition_deregister` (cleanup.py lines 193-197): reads
`batch_list[0]` (an `IndexError`, modelled as `none`, on an empty batch),
prints the ARN with the dry-run suffix, and calls the deregister capability
only when `commit` is set. -/
def definition_deregister (commit : Bool) (batch_list : List Arn) :
    Option MutationHandlerResult :=
  match batch_list with
  | [] => none
  | definition_arn :: _ =>
    some
      { output_lines := [(definition_arn, dryrun_message commit)],
        mutation_calls :=
          if commit then [MutationCall.deregister definition_arn] else [] }

/-- `_definition_delete` (cleanup.py lines 213-218): prints every ARN of the
batch with the dry-run suffix, and calls the delete capability with the whole
batch only when `commit` is set. -/
def definition_delete (commit : Bool) (batch_list : List Arn) :
    MutationHandlerResult :=
  { output_lines := batch_list.map (fun a => (a, dryrun_message commit)),
    mutation_calls := if commit then [MutationCall.delete batch_list] else [] }

/-! ### Lemmas about the string primitives -/

theorem rfindIdx?_cons (c x : Char) (xs : List Char) :
    rfindIdx? c (x :: xs) =
      match rfindIdx? c xs with
      | some i => some (i + 1)
      | none => if x = c then some 0 else none := rfl

theorem rfindIdx?_eq_none_iff (c : Char) (s : List Char) :
    rfindIdx? c s = none ↔ c ∉ s := by
  induction s with
  | nil => simp [rfindIdx?]
  | cons x xs ih =>
    rw [rfindIdx?_cons]
    cases hxs : rfindIdx? c xs with
    | some i =>
      have hmem : c ∈ xs := by
        by_contra hc
        rw [ih.mpr hc] at hxs
        exact Option.noConfusion hxs
      simp [hmem]
    | none =>
      have hmem : c ∉ xs := ih.mp hxs
      by_cases hx : x = c
      · subst hx
        simp
      · simp [hx, Ne.symm hx, hmem]

theorem rfindIdx?_lt_length {c : Char} {s : List Char} {i : Nat}
    (h : rfindIdx? c s = some i) : i < s.length := by
  induction s generalizing i with
  | nil => simp [rfindIdx?] at h
  | cons x xs ih =>
    rw [rfindIdx?_cons] at h
    cases hxs : rfindIdx? c xs with
    | some j =>
      rw [hxs] at h
      simp only [Option.some.injEq] at h
      subst h
      simpa [List.length_cons] using Nat.succ_lt_succ (ih hxs)
    | none =>
      rw [hxs] at h
      by_cases hx : x = c
      · simp only [if_pos hx, Option.some.injEq] at h
        subst h
        simp [List.length_cons]
      · simp [hx] at h

theorem rfindIdx?_append_colonfree {c : Char} (p v : List Char) (hv : c ∉ v) :
    rfindIdx? c (p ++ c :: v) = some p.length := by
  induction p with
  | nil =>
    rw [List.nil_append, rfindIdx?_cons, (rfindIdx?_eq_none_iff c v).mpr hv]
    simp
  | cons x p ih =>
    rw [List.cons_append, rfindIdx?_cons, ih]
    simp [List.length_cons]

/-- On an identifier made of a prefix, a colon and a colon-free version
suffix, `canonical_task_definition_arn` returns exactly the prefix. -/
theorem canonical_append_colonfree (p v : List Char) (hv : ':' ∉ v) :
    canonical_task_definition_arn (p ++ ':' :: v) = p := by
  unfold canonical_task_definition_arn str_rfind
  rw [rfindIdx?_append_colonfree p v hv]
  unfold py_slice_to
  simp [List.take_left]

/-- When the separator does not occur, `canonical_task_definition_arn` takes
the `s[0:-1]` branch and drops the final character. -/
theorem canonical_of_not_mem (s : List Char) (hs : ':' ∉ s) :
    canonical_task_definition_arn s = s.dropLast := by
  unfold canonical_task_definition_arn str_rfind
  rw [(rfindIdx?_eq_none_iff ':' s).mpr hs]
  unfold py_slice_to
  have h1 : ((s.length : Int) + -1).toNat = s.length - 1 := by omega
  simp only [if_pos (by norm_num : (-1 : Int) < 0), h1]
  exact (List.dropLast_eq_take s).symm

/-- The canonical derivation strictly shortens every nonempty identifier. -/
theorem canonical_length_lt (s : List Char) (hs : s ≠ []) :
    (canonical_task_definition_arn s).length < s.length := by
  unfold canonical_task_definition_arn str_rfind
  cases h : rfindIdx? ':' s with
  | none =>
    unfold py_slice_to
    have hlen : 0 < s.length := List.length_pos.mpr hs
    have h1 : ((s.length : Int) + -1).toNat = s.length - 1 := by omega
    simp only [if_pos (by norm_num : (-1 : Int) < 0), h1, List.length_take]
    omega
  | some i =>
    have hi := rfindIdx?_lt_length h
    unfold py_slice_to
    have h0 : ¬ ((i : Int) < 0) := by omega
    simp only [if_neg h0, Int.toNat_natCast, List.length_take]
    omega

/-- Applying the canonical derivation to its own output is a no-op exactly
when that output is the empty identifier. -/
theorem canonical_fixed_iff (s : List Char) :
    canonical_task_definition_arn (canonical_task_definition_arn s) =
      canonical_task_definition_arn s ↔ canonical_task_definition_arn s = [] := by
  constructor
  · intro h
    by_contra hne
    have := canonical_length_lt (canonical_task_definition_arn s) hne
    rw [h] at this
    omega
  · intro h
    rw [h]
    rfl

/-! ### Lemmas about the batch throttle executor -/

theorem prependTrace_eq_done {events : List Event} {r : ExecResult}
    {l : List Arn} {tr : List Event}
    (h : ExecResult.prependTrace events r = ExecResult.done l tr) :
    ∃ tr2, r = ExecResult.done l tr2 ∧ tr = events ++ tr2 := by
  cases r with
  | done l2 tr2 =>
    simp only [ExecResult.prependTrace, ExecResult.done.injEq] at h
    exact ⟨tr2, by rw [h.1], h.2.symm⟩
  | fatal l2 tr2 => simp [ExecResult.prependTrace] at h
  | fuelOut l2 tr2 => simp [ExecResult.prependTrace] at h

/-- When a run over a nonempty work list returns normally, its trace starts
with a handler invocation on the front batch of that work list. -/
theorem process_done_trace_head {fuel : Nat}
    {api_handler : Nat → List Arn → ApiResult} {call_index : Nat}
    {process_list : List Arn} {batch_size : Nat} {l : List Arn}
    {tr : List Event} (hne : process_list ≠ [])
    (hrun : process_aws_api_batch_throttle fuel api_handler call_index
      process_list batch_size = ExecResult.done l tr) :
    ∃ r tr2, tr = Event.call (process_list.take batch_size) r :: tr2 := by
  cases fuel with
  | zero => simp [process_aws_api_batch_throttle] at hrun
  | succ n =>
    rw [process_aws_api_batch_throttle, if_neg hne] at hrun
    split at hrun
    · obtain ⟨tr2, _, htr⟩ := prependTrace_eq_done hrun
      rw [List.singleton_append] at htr
      exact ⟨ApiResult.ok, tr2, htr⟩
    · rename_i code _
      split at hrun
      · obtain ⟨tr2, _, htr⟩ := prependTrace_eq_done hrun
        simp only [List.cons_append, List.nil_append] at htr
        exact ⟨ApiResult.clientError code, Event.sleep :: tr2, htr⟩
      · obtain ⟨tr2, _, htr⟩ := prependTrace_eq_done hrun
        rw [List.singleton_append] at htr
        exact ⟨ApiResult.clientError code, tr2, htr⟩
    · exact absurd hrun (by simp)

/-- Core of batch completeness: a normal return leaves the work list empty
and the successful batches of the trace concatenate to the initial list. -/
theorem process_done_flatten {fuel : Nat}
    {api_handler : Nat → List Arn → ApiResult} {call_index : Nat}
    {process_list : List Arn} {batch_size : Nat} {l : List Arn}
    {tr : List Event}
    (hrun : process_aws_api_batch_throttle fuel api_handler call_index
      process_list batch_size = ExecResult.done l tr) :
    l = [] ∧ (successfulBatches tr).flatten = process_list := by
  induction fuel generalizing call_index process_list l tr with
  | zero => simp [process_aws_api_batch_throttle] at hrun
  | succ n ih =>
    by_cases hne : process_list = []
    · rw [process_aws_api_batch_throttle, if_pos hne] at hrun
      obtain ⟨h1, h2⟩ := ExecResult.done.inj hrun
      subst hne
      simp [← h1, ← h2, successfulBatches]
    · rw [process_aws_api_batch_throttle, if_neg hne] at hrun
      split at hrun
      · obtain ⟨tr2, hrec, htr⟩ := prependTrace_eq_done hrun
        rw [List.singleton_append] at htr
        obtain ⟨h1, h2⟩ := ih hrec
        subst htr
        refine ⟨h1, ?_⟩
        simp only [successfulBatches, List.flatten_cons, h2]
        exact List.take_append_drop batch_size process_list
      · split at hrun
        · obtain ⟨tr2, hrec, htr⟩ := prependTrace_eq_done hrun
          simp only [List.cons_append, List.nil_append] at htr
          obtain ⟨h1, h2⟩ := ih hrec
          subst htr
          exact ⟨h1, by simpa [successfulBatches] using h2⟩
        · obtain ⟨tr2, hrec, htr⟩ := prependTrace_eq_done hrun
          rw [List.singleton_append] at htr
          obtain ⟨h1, h2⟩ := ih hrec
          subst htr
          exact ⟨h1, by simpa [successfulBatches] using h2⟩
      · exact absurd hrun (by simp)

/-- Core of throttle resilience: in the trace of a normal return, every
throttled invocation is followed by the sleep and then a re-invocation of the
identical batch. -/
theorem process_done_throttle_retry {fuel : Nat}
    {api_handler : Nat → List Arn → ApiResult} {call_index : Nat}
    {process_list : List Arn} {batch_size : Nat} {l : List Arn}
    {tr : List Event}
    (hrun : process_aws_api_batch_throttle fuel api_handler call_index
      process_list batch_size = ExecResult.done l tr) :
    throttleRetrySameBatch tr = true := by
  induction fuel generalizing call_index process_list l tr with
  | zero => simp [process_aws_api_batch_throttle] at hrun
  | succ n ih =>
    by_cases hne : process_list = []
    · rw [process_aws_api_batch_throttle, if_pos hne] at hrun
      obtain ⟨_, h2⟩ := ExecResult.done.inj hrun
      rw [← h2]
      rfl
    · rw [process_aws_api_batch_throttle, if_neg hne] at hrun
      split at hrun
      · obtain ⟨tr2, hrec, htr⟩ := prependTrace_eq_done hrun
        rw [List.singleton_append] at htr
        subst htr
        simpa [throttleRetrySameBatch] using ih hrec
      · rename_i code hres
        split at hrun
        · rename_i hc
          obtain ⟨tr2, hrec, htr⟩ := prependTrace_eq_done hrun
          simp only [List.cons_append, List.nil_append] at htr
          obtain ⟨r, tr3, htr2⟩ := process_done_trace_head hne hrec
          subst htr
          subst hc
          subst htr2
          have hrest := ih hrec
          rw [throttleRetrySameBatch]
          simp only [if_pos rfl]
          simpa [throttleRetrySameBatch] using hrest
        · rename_i hc
          obtain ⟨tr2, hrec, htr⟩ := prependTrace_eq_done hrun
          rw [List.singleton_append] at htr
          subst htr
          have hrest := ih hrec
          simpa [throttleRetrySameBatch, hc] using hrest
      · exact absurd hrun (by simp)

/-! ### Lemmas about the usage collector -/

theorem ecs_list_nil (describe_tasks : List Arn → List Arn) :
    ecs_cluster_task_definition_arn_list describe_tasks [] = ([], [], []) := by
  rw [ecs_cluster_task_definition_arn_list]
  simp

theorem ecs_list_cons (describe_tasks : List Arn → List Arn)
    (task_arn_list : List Arn) (hne : task_arn_list ≠ []) :
    ecs_cluster_task_definition_arn_list describe_tasks task_arn_list =
      (task_arn_list.take ECS_TASK_QUERY_BATCH_SIZE ::
          (ecs_cluster_task_definition_arn_list describe_tasks
            (task_arn_list.drop ECS_TASK_QUERY_BATCH_SIZE)).1,
        describe_tasks (task_arn_list.take ECS_TASK_QUERY_BATCH_SIZE) ++
          (ecs_cluster_task_definition_arn_list describe_tasks
            (task_arn_list.drop ECS_TASK_QUERY_BATCH_SIZE)).2.1,
        (ecs_cluster_task_definition_arn_list describe_tasks
          (task_arn_list.drop ECS_TASK_QUERY_BATCH_SIZE)).2.2) := by
  rw [ecs_cluster_task_definition_arn_list]
  rw [dif_neg hne]

/-- The in-place `del task_arn_list[:100]` deletions always leave the
caller's task list empty once the loop finishes. -/
theorem ecs_list_drains (describe_tasks : List Arn → List Arn)
    (task_arn_list : List Arn) :
    (ecs_cluster_task_definition_arn_list describe_tasks task_arn_list).2.2 =
      [] := by
  by_cases hne : task_arn_list = []
  · subst hne
    rw [ecs_list_nil]
  · rw [ecs_list_cons describe_tasks task_arn_list hne]
    exact ecs_list_drains describe_tasks
      (task_arn_list.drop ECS_TASK_QUERY_BATCH_SIZE)
termination_by task_arn_list.length
decreasing_by
  have hpos : 0 < task_arn_list.length := List.length_pos.mpr hne
  simp only [List.length_drop, ECS_TASK_QUERY_BATCH_SIZE]
  omega

/-- When each task resolves independently to one task definition ARN, the
chunked query loop accumulates exactly the element-wise resolution of the
whole input list (what a single uncapped call would produce). -/
theorem ecs_list_map_resolve (f : Arn → Arn) (task_arn_list : List Arn) :
    (ecs_cluster_task_definition_arn_list (List.map f) task_arn_list).2.1 =
      task_arn_list.map f := by
  by_cases hne : task_arn_list = []
  · subst hne
    rw [ecs_list_nil]
    rfl
  · rw [ecs_list_cons (List.map f) task_arn_list hne]
    have ih :=
      ecs_list_map_resolve f (task_arn_list.drop ECS_TASK_QUERY_BATCH_SIZE)
    show List.map f (task_arn_list.take ECS_TASK_QUERY_BATCH_SIZE) ++
        (ecs_cluster_task_definition_arn_list (List.map f)
          (task_arn_list.drop ECS_TASK_QUERY_BATCH_SIZE)).2.1 =
      task_arn_list.map f
    rw [ih, ← List.map_append, List.take_append_drop]
termination_by task_arn_list.length
decreasing_by
  have hpos : 0 < task_arn_list.length := List.length_pos.mpr hne
  simp only [List.length_drop, ECS_TASK_QUERY_BATCH_SIZE]
  omega

/-! ### Lemmas about the reconciler -/

theorem mem_compute_unused_iff {set_inactive_mode : String}
    {definition_in_use_arn_list definition_in_use_canonical_arn_set : List Arn}
    (active_arn_list : List Arn) (a : Arn) :
    a ∈ compute_unused_arn_list set_inactive_mode definition_in_use_arn_list
        definition_in_use_canonical_arn_set active_arn_list ↔
      a ∈ active_arn_list ∧
        ¬(set_inactive_mode = "retain-versions" ∧
          canonical_task_definition_arn a ∈
            definition_in_use_canonical_arn_set) ∧
        a ∉ definition_in_use_arn_list := by
  induction active_arn_list with
  | nil => simp [compute_unused_arn_list]
  | cons x rest ih =>
    simp only [compute_unused_arn_list]
    by_cases h1 : set_inactive_mode = "retain-versions" ∧
        canonical_task_definition_arn x ∈ definition_in_use_canonical_arn_set
    · rw [if_pos h1, ih]
      constructor
      · rintro ⟨ha, h2, h3⟩
        exact ⟨List.mem_cons_of_mem x ha, h2, h3⟩
      · rintro ⟨ha, h2, h3⟩
        rcases List.mem_cons.mp ha with rfl | ha2
        · exact absurd h1 h2
        · exact ⟨ha2, h2, h3⟩
    · rw [if_neg h1]
      by_cases h2 : x ∈ definition_in_use_arn_list
      · rw [if_neg (not_not_intro h2), ih]
        constructor
        · rintro ⟨ha, h3, h4⟩
          exact ⟨List.mem_cons_of_mem x ha, h3, h4⟩
        · rintro ⟨ha, h3, h4⟩
          rcases List.mem_cons.mp ha with rfl | ha2
          · exact absurd h2 h4
          · exact ⟨ha2, h3, h4⟩
      · rw [if_pos h2, List.mem_cons, ih]
        constructor
        · rintro (rfl | ⟨ha, h3, h4⟩)
          · exact ⟨List.mem_cons_self a rest, h1, h2⟩
          · exact ⟨List.mem_cons_of_mem x ha, h3, h4⟩
        · rintro ⟨ha, h3, h4⟩
          rcases List.mem_cons.mp ha with rfl | ha2
          · exact Or.inl rfl
          · exact Or.inr ⟨ha2, h3, h4⟩

theorem mem_retained_iff {set_inactive_mode : String}
    {definition_in_use_arn_list definition_in_use_canonical_arn_set : List Arn}
    (active_arn_list : List Arn) (a : Arn) :
    a ∈ retained_arn_list set_inactive_mode definition_in_use_arn_list
        definition_in_use_canonical_arn_set active_arn_list ↔
      a ∈ active_arn_list ∧
        ((set_inactive_mode = "retain-versions" ∧
          canonical_task_definition_arn a ∈
            definition_in_use_canonical_arn_set) ∨
          a ∈ definition_in_use_arn_list) := by
  induction active_arn_list with
  | nil => simp [retained_arn_list]
  | cons x rest ih =>
    simp only [retained_arn_list]
    by_cases h1 : (set_inactive_mode = "retain-versions" ∧
        canonical_task_definition_arn x ∈
          definition_in_use_canonical_arn_set) ∨
        x ∈ definition_in_use_arn_list
    · rw [if_pos h1, List.mem_cons, ih]
      constructor
      · rintro (rfl | ⟨ha, h2⟩)
        · exact ⟨List.mem_cons_self a rest, h1⟩
        · exact ⟨List.mem_cons_of_mem x ha, h2⟩
      · rintro ⟨ha, h2⟩
        rcases List.mem_cons.mp ha with rfl | ha2
        · exact Or.inl rfl
        · exact Or.inr ⟨ha2, h2⟩
    · rw [if_neg h1, ih]
      constructor
      · rintro ⟨ha, h2⟩
        exact ⟨List.mem_cons_of_mem x ha, h2⟩
      · rintro ⟨ha, h2⟩
        rcases List.mem_cons.mp ha with rfl | ha2
        · exact absurd h2 h1
        · exact ⟨ha2, h2⟩

theorem compute_unused_sublist (set_inactive_mode : String)
    (definition_in_use_arn_list definition_in_use_canonical_arn_set
      active_arn_list : List Arn) :
    List.Sublist (compute_unused_arn_list set_inactive_mode
        definition_in_use_arn_list definition_in_use_canonical_arn_set
        active_arn_list) active_arn_list := by
  induction active_arn_list with
  | nil =>
    simp only [compute_unused_arn_list]
    exact List.Sublist.refl []
  | cons x rest ih =>
    simp only [compute_unused_arn_list]
    split
    · exact List.Sublist.cons x ih
    · split
      · exact List.Sublist.cons₂ x ih
      · exact List.Sublist.cons x ih

/-! ### Claim theorems -/

/-- C1: the claim says a mutation error that is not a rate-limit signal is
propagated as fatal.  The code instead swallows every non-throttling
`ClientError` and retries the same batch without pause: with a handler that
always raises a `ClientError` with code `"AccessDenied"` on the work list
`["a"]`, the executor neither returns nor propagates within any fuel bound —
it loops forever with the work list untouched, never reaching a `fatal`
outcome. -/
theorem c1_nonthrottle_client_error_never_fatal :
    ∀ fuel call_index : Nat,
      ∃ tr, process_aws_api_batch_throttle fuel
          (fun _ _ => ApiResult.clientError "AccessDenied") call_index
          [['a']] 1 = ExecResult.fuelOut [['a']] tr := by
  intro fuel
  induction fuel with
  | zero => exact fun _ => ⟨[], rfl⟩
  | succ n ih =>
    intro call_index
    obtain ⟨tr, htr⟩ := ih (call_index + 1)
    refine ⟨Event.call [['a']] (ApiResult.clientError "AccessDenied") :: tr, ?_⟩
    rw [process_aws_api_batch_throttle,
      if_neg (by simp : ¬([['a']] : List Arn) = [])]
    show ExecResult.prependTrace _ _ = _
    rw [htr]
    rfl

/-- C2: for every work list (any length), batch size ≥ 1 and handler, if the
batch throttle executor returns normally then the work list is drained empty
and the successful batches of its trace concatenate to exactly the original
work list: every element is consumed in exactly one successful batch
submission, with no loss and no duplication. -/
theorem c2_batch_completeness {fuel : Nat}
    {api_handler : Nat → List Arn → ApiResult} {call_index : Nat}
    {process_list : List Arn} {batch_size : Nat} {l : List Arn}
    {tr : List Event} (hbs : 1 ≤ batch_size)
    (hrun : process_aws_api_batch_throttle fuel api_handler call_index
      process_list batch_size = ExecResult.done l tr) :
    l = [] ∧ (successfulBatches tr).flatten = process_list :=
  process_done_flatten hrun

theorem c2_batch_completeness_witness :
    (1 : Nat) ≤ 2 ∧
      (([] : List Arn) = [] ∧
        (successfulBatches
            [Event.call [['a'], ['b']] ApiResult.ok,
              Event.call [['c']] (ApiResult.clientError "ThrottlingException"),
              Event.sleep,
              Event.call [['c']] ApiResult.ok]).flatten =
          [['a'], ['b'], ['c']]) :=
  ⟨by decide,
    @c2_batch_completeness 10
      (fun i _ =>
        if i = 1 then ApiResult.clientError "ThrottlingException"
        else ApiResult.ok)
      0 [['a'], ['b'], ['c']] 2 []
      [Event.call [['a'], ['b']] ApiResult.ok,
        Event.call [['c']] (ApiResult.clientError "ThrottlingException"),
        Event.sleep,
        Event.call [['c']] ApiResult.ok]
      (by decide) (by decide)⟩

/-- C3 counterexample: the claim asserts the canonical derivation is
idempotent, but applying `canonical_task_definition_arn` to its own output
strips a further component: on `"a:b:c"` the first application gives `"a:b"`
and the second gives `"a"`. -/
theorem c3_canonical_idempotence_counterexample :
    canonical_task_definition_arn
        (canonical_task_definition_arn ['a', ':', 'b', ':', 'c']) ≠
      canonical_task_definition_arn ['a', ':', 'b', ':', 'c'] := by
  decide

/-- C3 amended: for any two identifiers that differ only in a colon-free
trailing version component, the canonical identities coincide; the derivation
however is not idempotent in general — reapplying it is a no-op exactly when
the first application already produced the empty identifier. -/
theorem c3_canonical_grouping_amended :
    (∀ p v1 v2 : List Char, ':' ∉ v1 → ':' ∉ v2 →
      canonical_task_definition_arn (p ++ ':' :: v1) =
        canonical_task_definition_arn (p ++ ':' :: v2)) ∧
    (∀ s : List Char,
      canonical_task_definition_arn (canonical_task_definition_arn s) =
          canonical_task_definition_arn s ↔
        canonical_task_definition_arn s = []) :=
  ⟨fun p v1 v2 h1 h2 => by
    rw [canonical_append_colonfree p v1 h1, canonical_append_colonfree p v2 h2],
   canonical_fixed_iff⟩

theorem c3_canonical_grouping_amended_witness :
    (canonical_task_definition_arn (['d', 'e', 'f'] ++ ':' :: ['3']) =
      canonical_task_definition_arn (['d', 'e', 'f'] ++ ':' :: ['4', '2'])) ∧
      (canonical_task_definition_arn
          (canonical_task_definition_arn ['x']) =
          canonical_task_definition_arn ['x'] ↔
        canonical_task_definition_arn ['x'] = []) :=
  ⟨c3_canonical_grouping_amended.1 ['d', 'e', 'f'] ['3'] ['4', '2']
      (by decide) (by decide),
    c3_canonical_grouping_amended.2 ['x']⟩

/-- C4: the claim says the reported per-cluster task count equals the number
of task ARNs listed for the cluster.  But `ecs_cluster_task_definition_arn_list`
destructively drains the caller's `task_arn_list`, so the later
`len(task_arn_list)` in `main` is always 0: for a cluster listing one task
ARN, the reported count is 0 while the listed count is 1, for every resolver. -/
theorem c4_task_count_reported_zero (describe_tasks : List Arn → List Arn) :
    ((ecs_cluster_task_definition_arn_list describe_tasks
        [['t', '1']]).2.2).length = 0 ∧
      ([['t', '1']] : List Arn).length = 1 := by
  constructor
  · rw [ecs_list_drains]
    rfl
  · rfl

/-- C5: in any normal run of the batch throttle executor, every rate-limited
handler invocation is immediately followed by the backoff pause and then by a
re-invocation carrying the identical batch: a throttled batch is resubmitted
unchanged (N throttles before success give the same contents on all N+1
attempts, a pause between consecutive attempts), and the executor never
advances past a throttled batch nor removes any element of it. -/
theorem c5_throttle_resilience {fuel : Nat}
    {api_handler : Nat → List Arn → ApiResult} {call_index : Nat}
    {process_list : List Arn} {batch_size : Nat} {l : List Arn}
    {tr : List Event}
    (hrun : process_aws_api_batch_throttle fuel api_handler call_index
      process_list batch_size = ExecResult.done l tr) :
    throttleRetrySameBatch tr = true :=
  process_done_throttle_retry hrun

theorem c5_throttle_resilience_witness :
    throttleRetrySameBatch
        [Event.call [['a']] (ApiResult.clientError "ThrottlingException"),
          Event.sleep,
          Event.call [['a']] (ApiResult.clientError "ThrottlingException"),
          Event.sleep,
          Event.call [['a']] ApiResult.ok] = true :=
  @c5_throttle_resilience 6
    (fun i _ =>
      if i < 2 then ApiResult.clientError "ThrottlingException"
      else ApiResult.ok)
    0 [['a']] 1 []
    [Event.call [['a']] (ApiResult.clientError "ThrottlingException"),
      Event.sleep,
      Event.call [['a']] (ApiResult.clientError "ThrottlingException"),
      Event.sleep,
      Event.call [['a']] ApiResult.ok]
    (by decide)

/-- C6: resolving 250 task ARNs through the resolver capped at
`ECS_TASK_QUERY_BATCH_SIZE = 100` issues exactly 3 resolution calls with
batch sizes 100, 100 and 50 in that order, and the concatenated result
equals what one uncapped element-wise resolution of the whole list would
produce. -/
theorem c6_chunked_resolution (f : Arn → Arn) (task_arn_list : List Arn)
    (hlen : task_arn_list.length = 250) :
    ((ecs_cluster_task_definition_arn_list (List.map f) task_arn_list).1.map
        List.length = [100, 100, 50]) ∧
      (ecs_cluster_task_definition_arn_list (List.map f) task_arn_list).2.1 =
        task_arn_list.map f := by
  refine ⟨?_, ecs_list_map_resolve f task_arn_list⟩
  have h0 : task_arn_list ≠ [] := by
    intro h
    rw [h] at hlen
    simp at hlen
  have hl1 : (task_arn_list.drop ECS_TASK_QUERY_BATCH_SIZE).length = 150 := by
    simp only [List.length_drop, ECS_TASK_QUERY_BATCH_SIZE]
    omega
  have h1 : task_arn_list.drop ECS_TASK_QUERY_BATCH_SIZE ≠ [] := by
    intro h
    rw [h] at hl1
    simp at hl1
  have hl2 : ((task_arn_list.drop ECS_TASK_QUERY_BATCH_SIZE).drop
      ECS_TASK_QUERY_BATCH_SIZE).length = 50 := by
    simp only [List.length_drop, ECS_TASK_QUERY_BATCH_SIZE]
    omega
  have h2 : (task_arn_list.drop ECS_TASK_QUERY_BATCH_SIZE).drop
      ECS_TASK_QUERY_BATCH_SIZE ≠ [] := by
    intro h
    rw [h] at hl2
    simp at hl2
  have hl3 : (((task_arn_list.drop ECS_TASK_QUERY_BATCH_SIZE).drop
      ECS_TASK_QUERY_BATCH_SIZE).drop ECS_TASK_QUERY_BATCH_SIZE) = [] := by
    apply List.eq_nil_of_length_eq_zero
    simp only [List.length_drop, ECS_TASK_QUERY_BATCH_SIZE]
    omega
  rw [ecs_list_cons _ _ h0, ecs_list_cons _ _ h1, ecs_list_cons _ _ h2, hl3,
    ecs_list_nil]
  simp only [List.map_cons, List.map_nil, List.length_take, hlen, hl1, hl2]
  decide

theorem c6_chunked_resolution_witness :
    ((ecs_cluster_task_definition_arn_list (List.map id)
        (List.replicate 250 (['a'] : Arn))).1.map List.length =
      [100, 100, 50]) ∧
      (ecs_cluster_task_definition_arn_list (List.map id)
          (List.replicate 250 (['a'] : Arn))).2.1 =
        (List.replicate 250 (['a'] : Arn)).map id :=
  c6_chunked_resolution id (List.replicate 250 ['a'])
    (by rw [List.length_replicate])

/-- C7: with the same in-use list, canonical set and active list, every ARN
classified unused under the `retain-versions` policy is also classified
unused under the policy that checks exact identifiers only (`aggressive`):
the retain-versions unused candidates are a subset of the exact ones. -/
theorem c7_retention_monotonicity
    (definition_in_use_arn_list definition_in_use_canonical_arn_set
      active_arn_list : List Arn) (x : Arn)
    (hx : x ∈ compute_unused_arn_list "retain-versions"
      definition_in_use_arn_list definition_in_use_canonical_arn_set
      active_arn_list) :
    x ∈ compute_unused_arn_list "aggressive" definition_in_use_arn_list
      definition_in_use_canonical_arn_set active_arn_list := by
  rw [mem_compute_unused_iff] at hx ⊢
  refine ⟨hx.1, fun h => ?_, hx.2.2⟩
  exact absurd h.1 (by decide)

theorem c7_retention_monotonicity_witness :
    (['a'] : Arn) ∈ compute_unused_arn_list "aggressive" [] [] [['a']] :=
  c7_retention_monotonicity [] [] [['a']] ['a'] (by decide)

/-- C8: for a duplicate-free active list and either policy, the
unused-candidate output is an order-preserving sublist of the input with no
duplicates, and every active ARN lands in exactly one of the unused-candidate
list and the retained complement — never both, never neither. -/
theorem c8_coverage_exclusivity (set_inactive_mode : String)
    (definition_in_use_arn_list definition_in_use_canonical_arn_set
      active_arn_list : List Arn) (hnd : active_arn_list.Nodup) :
    List.Sublist (compute_unused_arn_list set_inactive_mode
        definition_in_use_arn_list definition_in_use_canonical_arn_set
        active_arn_list) active_arn_list ∧
      (compute_unused_arn_list set_inactive_mode definition_in_use_arn_list
        definition_in_use_canonical_arn_set active_arn_list).Nodup ∧
      ∀ a ∈ active_arn_list,
        (a ∈ compute_unused_arn_list set_inactive_mode
            definition_in_use_arn_list definition_in_use_canonical_arn_set
            active_arn_list ∧
          a ∉ retained_arn_list set_inactive_mode definition_in_use_arn_list
            definition_in_use_canonical_arn_set active_arn_list) ∨
        (a ∉ compute_unused_arn_list set_inactive_mode
            definition_in_use_arn_list definition_in_use_canonical_arn_set
            active_arn_list ∧
          a ∈ retained_arn_list set_inactive_mode definition_in_use_arn_list
            definition_in_use_canonical_arn_set active_arn_list) := by
  refine ⟨compute_unused_sublist set_inactive_mode definition_in_use_arn_list
      definition_in_use_canonical_arn_set active_arn_list,
    List.Nodup.sublist (compute_unused_sublist set_inactive_mode
      definition_in_use_arn_list definition_in_use_canonical_arn_set
      active_arn_list) hnd, ?_⟩
  intro a ha
  simp only [mem_compute_unused_iff, mem_retained_iff]
  by_cases hA : set_inactive_mode = "retain-versions" ∧
      canonical_task_definition_arn a ∈ definition_in_use_canonical_arn_set
  · tauto
  · by_cases hU : a ∈ definition_in_use_arn_list
    · tauto
    · tauto

theorem c8_coverage_exclusivity_witness :
    List.Sublist (compute_unused_arn_list "aggressive" [['b']] []
        [['a'], ['b']]) [['a'], ['b']] ∧
      (compute_unused_arn_list "aggressive" [['b']] []
        [['a'], ['b']]).Nodup ∧
      ∀ a ∈ ([['a'], ['b']] : List Arn),
        (a ∈ compute_unused_arn_list "aggressive" [['b']] [] [['a'], ['b']] ∧
          a ∉ retained_arn_list "aggressive" [['b']] [] [['a'], ['b']]) ∨
        (a ∉ compute_unused_arn_list "aggressive" [['b']] [] [['a'], ['b']] ∧
          a ∈ retained_arn_list "aggressive" [['b']] [] [['a'], ['b']]) :=
  c8_coverage_exclusivity "aggressive" [['b']] [] [['a'], ['b']] (by decide)

/-- C9: with commit disabled, neither mutation handler of `main` ever issues
a mutating remote capability call, whatever the batch contents: the
deregister handler (when its batch is nonempty, so it does not raise
`IndexError`) and the delete handler both produce an empty mutation-call
list. -/
theorem c9_preview_no_mutation (batch_list : List Arn) :
    Option.map MutationHandlerResult.mutation_calls
        (definition_deregister false batch_list) =
      (if batch_list = [] then none else some []) ∧
      (definition_delete false batch_list).mutation_calls = [] := by
  cases batch_list <;> simp [definition_deregister, definition_delete]

/-- C10: on any input without the `":"` separator, `rfind` yields -1 and the
slice `[0:-1]` drops the final character, so `canonical_task_definition_arn`
returns the input shorn of its last character rather than unchanged. -/
theorem c10_no_separator_drops_last (s : List Char) (hs : ':' ∉ s) :
    canonical_task_definition_arn s = s.dropLast :=
  canonical_of_not_mem s hs

theorem c10_no_separator_drops_last_witness :
    canonical_task_definition_arn ['a', 'b', 'c'] =
      List.dropLast ['a', 'b', 'c'] :=
  c10_no_separator_drops_last ['a', 'b', 'c'] (by decide)

end Cleanup
